import Mathlib

/-!
# Gambit combo state machine (`plugin.cpp`)

A shallow embedding of the combo store (`class Gambit`), the cashout dispatcher
(`execute_gambit`) and the two event sinks (`HitEventSink`, `AnimEventSink`) of
`plugin.cpp`, together with theorems about them.

* `std::string combo_chain` is a `List Char`.
* The process-wide singleton `Gambit` and everything the plugin emits (log lines
  through `logger::info`, animation-graph notifications sent to the player) are
  carried in an explicit `World` that every operation takes and returns.
* `int` is `Int`; the only place a machine-integer range matters is `std::stoi`,
  which reports values outside the 32-bit signed range as a failure.
-/

namespace GambitMod

/-! ## Outputs and state -/

/-- What the plugin emits, in emission order: a line written with `logger::info`, or a
`NotifyAnimationGraph` call made on the player. -/
inductive Output
  | logInfo (msg : String)
  | NotifyAnimationGraph (eventName : String)
  deriving DecidableEq, Repr

/-- The data member of `class Gambit`: `std::string combo_chain`. -/
structure Gambit where
  combo_chain : List Char
  deriving DecidableEq, Repr

/-- The singleton store together with the outputs emitted so far. -/
structure World where
  gambit : Gambit
  out : List Output
  deriving DecidableEq, Repr

/-- The state at plugin load: `combo_chain = ""`, nothing emitted. -/
def World.init : World := ⟨⟨[]⟩, []⟩

/-- The call `logger::info(msg)`. -/
def World.log (w : World) (msg : String) : World :=
  { w with out := w.out ++ [Output.logInfo msg] }

/-- The type `RE::PlayerCharacter` as far as the plugin uses it: a target for
`NotifyAnimationGraph`. -/
inductive PlayerCharacter
  | singleton
  deriving DecidableEq, Repr

/-- The call `player->NotifyAnimationGraph(eventName)`. -/
def PlayerCharacter.NotifyAnimationGraph (_player : PlayerCharacter) (eventName : String)
    (w : World) : World :=
  { w with out := w.out ++ [Output.NotifyAnimationGraph eventName] }

/-! ## `std::stoi` -/

/-- Largest value of a 32-bit signed `int`. -/
def INT_MAX : Int := 2147483647

/-- Smallest value of a 32-bit signed `int`. -/
def INT_MIN : Int := -2147483648

/-- The C classification `isspace` in the default locale: space, `\t`, `\n`, `\v`, `\f`, `\r`. -/
def isspace (c : Char) : Bool :=
  c.toNat == 32 || (9 ≤ c.toNat && c.toNat ≤ 13)

/-- The C classification `isdigit`. -/
def isdigit (c : Char) : Bool :=
  48 ≤ c.toNat && c.toNat ≤ 57

/-- The digit loop of `strtol` in base 10: consume decimal digits while there are any,
accumulating the value; stop at the first other character. -/
def parseDigits : Nat → List Char → Nat
  | acc, [] => acc
  | acc, c :: cs => if isdigit c then parseDigits (10 * acc + (c.toNat - 48)) cs else acc

/-- The optional sign of `strtol`: `(negative, rest)`. -/
def parseSign : List Char → Bool × List Char
  | c :: cs => if c.toNat = 45 then (true, cs) else if c.toNat = 43 then (false, cs) else (false, c :: cs)
  | [] => (false, [])

/-- The function `std::stoi(str)` (base 10): skip leading white space, read an optional sign
and the longest run of decimal digits. `none` stands for a thrown exception:
`std::invalid_argument` when no digit can be read, `std::out_of_range` when the value does
not fit a 32-bit `int`. -/
def stoi (s : List Char) : Option Int :=
  let (neg, rest) := parseSign (s.dropWhile isspace)
  match rest with
  | [] => none
  | c :: _ =>
    if isdigit c then
      let v : Int := if neg then -(parseDigits 0 rest : Int) else (parseDigits 0 rest : Int)
      if INT_MIN ≤ v ∧ v ≤ INT_MAX then some v else none
    else none

/-! ## `class Gambit` -/

/-- The method `Gambit::GetComboState`: `0` for the empty chain, otherwise `std::stoi` of the
chain; on an exception it logs the chain and returns `-1`. -/
def Gambit.GetComboState (w : World) : Int × World :=
  if w.gambit.combo_chain.isEmpty then (0, w)
  else
    match stoi w.gambit.combo_chain with
    | some v => (v, w)
    | none => (-1, w.log ("Invalid Combo State: " ++ String.mk w.gambit.combo_chain))

/-- The method `Gambit::Add_A`. -/
def Gambit.Add_A (w : World) : World :=
  if w.gambit.combo_chain.length ≥ 6 then
    w.log "Max Combo Length Reached"
  else
    let w1 : World := { w with gambit := ⟨w.gambit.combo_chain ++ [Char.ofNat 49]⟩ }
    w1.log ("Builder: Normal Attack (1) -> Chain: " ++ String.mk w1.gambit.combo_chain)

/-- The method `Gambit::Add_B`. -/
def Gambit.Add_B (w : World) : World :=
  if w.gambit.combo_chain.length ≥ 6 then
    w.log "Max Combo Length Reached"
  else
    let w1 : World := { w with gambit := ⟨w.gambit.combo_chain ++ [Char.ofNat 50]⟩ }
    w1.log ("Builder: Bash Attack (2) -> Chain: " ++ String.mk w1.gambit.combo_chain)

/-- The method `Gambit::Clear`. -/
def Gambit.Clear (w : World) : World :=
  let w1 : World := { w with gambit := ⟨[]⟩ }
  w1.log "Gambit Chain Cleared."

/-! ## `execute_gambit` -/

/-- The body of the `switch (comboID)` in `execute_gambit`. -/
def execute_gambit.dispatch (player : PlayerCharacter) (comboID : Int) (w : World) : World :=
  if comboID = 11 then
    w.log "Effect: Deft Strike (Self Heal)"
  else if comboID = 22 then
    w.log "Effect: Defensive Strike (Stamina Surge)"
  else if comboID = 112 then
    let w1 := w.log "Effect: Perseverance"
    let w2 := player.NotifyAnimationGraph "IdleForceDefaultState" w1
    let w3 := player.NotifyAnimationGraph "ShoutStart" w2
    let w4 := player.NotifyAnimationGraph "ShoutRelease" w3
    player.NotifyAnimationGraph "IdleForceDefaultState" w4
  else if comboID = 121 then
    w.log "Effect: The Boot"
  else
    w.log "Unknown Combo."

/-- The function `execute_gambit(player)`. -/
def execute_gambit (player : PlayerCharacter) (w : World) : World :=
  let r := Gambit.GetComboState w
  let comboID := r.1
  if comboID = 0 then r.2
  else
    let w1 := r.2.log ("Attempting Cashout for ID: " ++ toString comboID)
    let w2 := execute_gambit.dispatch player comboID w1
    Gambit.Clear w2

/-! ## Host types, as far as the sinks read them -/

/-- The type `RE::TESObjectREFR`: the two queries the sinks make on a reference. -/
structure TESObjectREFR where
  /-- The result of `IsPlayerRef()`. -/
  IsPlayerRef : Bool
  /-- Whether `As<RE::Actor>()` is non-null. -/
  AsActor : Bool
  deriving DecidableEq, Repr

/-- The type `RE::TESObjectWEAP`. -/
structure TESObjectWEAP where
  /-- The result of `IsMelee()`. -/
  IsMelee : Bool
  deriving DecidableEq, Repr

/-- The type `RE::TESForm`. -/
structure TESForm where
  /-- The result of `Is(RE::FormType::Weapon)`. -/
  IsWeapon : Bool
  /-- The result of `As<RE::TESObjectWEAP>()`; `none` is the null pointer. -/
  AsWEAP : Option TESObjectWEAP
  deriving DecidableEq, Repr

/-- The flag set of a hit event, read through `flags.any(...)`. -/
structure HitFlags where
  kBashAttack : Bool
  kPowerAttack : Bool
  deriving DecidableEq, Repr

/-- The type `RE::TESHitEvent`; `none` in `cause` / `target` is a null handle. -/
structure TESHitEvent where
  cause : Option TESObjectREFR
  target : Option TESObjectREFR
  source : Nat
  flags : HitFlags
  deriving DecidableEq, Repr

/-- The type `RE::BSAnimationGraphEvent`; `none` in `holder` is the null pointer. -/
structure BSAnimationGraphEvent where
  tag : String
  holder : Option TESObjectREFR
  deriving DecidableEq, Repr

/-- The type `RE::BSEventNotifyControl`. -/
inductive BSEventNotifyControl
  | kContinue
  | kStop
  deriving DecidableEq, Repr

/-! ## `HitEventSink` -/

/-- The method `HitEventSink::EventValidate`; `none` is the null event pointer. -/
def HitEventSink.EventValidate (event : Option TESHitEvent) : Bool :=
  match event with
  | none => false
  | some ev =>
    match ev.cause, ev.target with
    | some cause, some target =>
      if !target.AsActor then false
      else if !cause.IsPlayerRef then false
      else true
    | _, _ => false

/-- The method `HitEventSink::ProcessEvent`. `LookupByID` is the host's
`RE::TESForm::LookupByID`. -/
def HitEventSink.ProcessEvent (LookupByID : Nat → Option TESForm) (event : Option TESHitEvent)
    (w : World) : BSEventNotifyControl × World :=
  if !HitEventSink.EventValidate event then (BSEventNotifyControl.kContinue, w)
  else
    match event with
    | none => (BSEventNotifyControl.kContinue, w)
    | some ev =>
      let isBash := ev.flags.kBashAttack
      let isPower := ev.flags.kPowerAttack
      if isPower then (BSEventNotifyControl.kContinue, w)
      else if isBash then (BSEventNotifyControl.kContinue, Gambit.Add_B w)
      else
        match LookupByID ev.source with
        | some sourceForm =>
          if sourceForm.IsWeapon then
            match sourceForm.AsWEAP with
            | some weapon =>
              if weapon.IsMelee then (BSEventNotifyControl.kContinue, Gambit.Add_A w)
              else (BSEventNotifyControl.kContinue, w)
            | none => (BSEventNotifyControl.kContinue, w)
          else (BSEventNotifyControl.kContinue, w)
        | none => (BSEventNotifyControl.kContinue, w)

/-! ## `AnimEventSink` -/

/-- The method `std::string_view::find(needle)`: the first position at which `needle` occurs in
the text, `none` for `npos`. -/
def find : List Char → List Char → Option Nat
  | [], needle => if needle.isEmpty then some 0 else none
  | c :: cs, needle =>
    if needle.isPrefixOf (c :: cs) then some 0 else (find cs needle).map (· + 1)

/-- The method `AnimEventSink::ProcessEvent`. `playerSingleton` is the result of
`RE::PlayerCharacter::GetSingleton()`; `none` in `event` is the null event pointer. -/
def AnimEventSink.ProcessEvent (playerSingleton : Option PlayerCharacter)
    (event : Option BSAnimationGraphEvent) (w : World) : BSEventNotifyControl × World :=
  match event with
  | none => (BSEventNotifyControl.kContinue, w)
  | some ev =>
    match ev.holder with
    | none => (BSEventNotifyControl.kContinue, w)
    | some holder =>
      if !holder.IsPlayerRef then (BSEventNotifyControl.kContinue, w)
      else
        match playerSingleton with
        | none => (BSEventNotifyControl.kContinue, w)
        | some player =>
          let eventTag := ev.tag.data
          let isPowerAttackStart := (find eventTag "PowerAttack_Start_End".data).isSome
          if isPowerAttackStart then
            let w1 := w.log "We are now going to do execute_gambit"
            (BSEventNotifyControl.kContinue, execute_gambit player w1)
          else (BSEventNotifyControl.kContinue, w)

/-! ## Operation sequences and reachable states -/

/-- The operations that act on the store. -/
inductive Op
  | Add_A
  | Add_B
  | Clear
  | execute_gambit
  deriving DecidableEq, Repr

/-- One operation applied to a state. -/
def Op.apply (player : PlayerCharacter) : Op → World → World
  | Op.Add_A, w => Gambit.Add_A w
  | Op.Add_B, w => Gambit.Add_B w
  | Op.Clear, w => Gambit.Clear w
  | Op.execute_gambit, w => GambitMod.execute_gambit player w

/-- A finite sequence of operations applied left to right. -/
def runOps (player : PlayerCharacter) (ops : List Op) (w : World) : World :=
  ops.foldl (fun acc op => op.apply player acc) w

/-- The states reachable from the initial empty store by some finite operation sequence. -/
def Reachable (w : World) : Prop :=
  ∃ ops : List Op, runOps PlayerCharacter.singleton ops World.init = w

/-- The builder tokens of the combo sequence. -/
inductive Token
  | Normal
  | Bash
  deriving DecidableEq, Repr

/-- The digit a token stands for: Normal is 1, Bash is 2. -/
def Token.digit : Token → Int
  | Token.Normal => 1
  | Token.Bash => 2

/-- Appending a token is `Add_A` for Normal and `Add_B` for Bash. -/
def Token.append : Token → World → World
  | Token.Normal, w => Gambit.Add_A w
  | Token.Bash, w => Gambit.Add_B w

/-- A list of tokens appended in order. -/
def appendAll (ts : List Token) (w : World) : World :=
  ts.foldl (fun acc t => t.append acc) w

/-- The integer whose decimal digits are the tokens' digits in order. -/
def digitsValue (ts : List Token) : Int :=
  ts.foldl (fun v t => 10 * v + t.digit) 0

/-- The animation signals among a list of outputs, in order. -/
def animSignals : List Output → List String
  | [] => []
  | Output.NotifyAnimationGraph n :: rest => n :: animSignals rest
  | Output.logInfo _ :: rest => animSignals rest

/-- The log lines among a list of outputs, in order. -/
def logLines : List Output → List String
  | [] => []
  | Output.logInfo m :: rest => m :: logLines rest
  | Output.NotifyAnimationGraph _ :: rest => logLines rest

/-! ## Lemmas on the digit chain and `stoi` -/

/-- The characters an append can write: the digit 1 or the digit 2. -/
def IsBuilderDigit (c : Char) : Prop := c = Char.ofNat 49 ∨ c = Char.ofNat 50

/-- The store invariant: only builder digits, at most six of them. -/
def ChainOK (l : List Char) : Prop := (∀ c ∈ l, IsBuilderDigit c) ∧ l.length ≤ 6

/-- The base-10 value of a chain of digit characters. -/
def chainValue (acc : Nat) (l : List Char) : Nat :=
  l.foldl (fun v c => 10 * v + (c.toNat - 48)) acc

/-- The character an append writes for a token. -/
def Token.char : Token → Char
  | Token.Normal => Char.ofNat 49
  | Token.Bash => Char.ofNat 50

/-- Whether the source of a hit resolves, through the host's form lookup, to a form that is a
weapon and whose weapon is melee-capable. -/
def isMeleeWeaponSource (LookupByID : Nat → Option TESForm) (source : Nat) : Bool :=
  match LookupByID source with
  | none => false
  | some form =>
    form.IsWeapon &&
      (match form.AsWEAP with
       | none => false
       | some weapon => weapon.IsMelee)

theorem IsBuilderDigit.isdigit {c : Char} (h : IsBuilderDigit c) : isdigit c = true := by
  rcases h with h | h <;> subst h <;> decide

theorem IsBuilderDigit.not_isspace {c : Char} (h : IsBuilderDigit c) : isspace c = false := by
  rcases h with h | h <;> subst h <;> decide

theorem IsBuilderDigit.parseSign {c : Char} (h : IsBuilderDigit c) (cs : List Char) :
    parseSign (c :: cs) = (false, c :: cs) := by
  rcases h with h | h <;> subst h <;> rfl

theorem IsBuilderDigit.val_pos {c : Char} (h : IsBuilderDigit c) : 1 ≤ c.toNat - 48 := by
  rcases h with h | h <;> subst h <;> decide

theorem IsBuilderDigit.val_le {c : Char} (h : IsBuilderDigit c) : c.toNat - 48 ≤ 2 := by
  rcases h with h | h <;> subst h <;> decide

theorem Token.char_isBuilderDigit (t : Token) : IsBuilderDigit t.char := by
  cases t
  · exact Or.inl rfl
  · exact Or.inr rfl

theorem Token.char_val (t : Token) : ((t.char.toNat - 48 : Nat) : Int) = t.digit := by
  cases t <;> rfl

theorem parseDigits_eq_chainValue (l : List Char) (h : ∀ c ∈ l, IsBuilderDigit c) (acc : Nat) :
    parseDigits acc l = chainValue acc l := by
  induction l generalizing acc with
  | nil => rfl
  | cons c cs ih =>
    have hc : isdigit c = true := (h c (List.mem_cons_self c cs)).isdigit
    have hcs : ∀ d ∈ cs, IsBuilderDigit d := fun d hd => h d (List.mem_cons_of_mem c hd)
    simp only [parseDigits, hc, if_true, chainValue, List.foldl_cons]
    exact ih hcs _

theorem chainValue_ge (l : List Char) (acc : Nat) : acc ≤ chainValue acc l := by
  induction l generalizing acc with
  | nil => exact Nat.le_refl _
  | cons c cs ih =>
    have := ih (10 * acc + (c.toNat - 48))
    simp only [chainValue, List.foldl_cons] at this ⊢
    omega

theorem chainValue_lt (l : List Char) (h : ∀ c ∈ l, IsBuilderDigit c) (acc : Nat) :
    chainValue acc l < (acc + 1) * 10 ^ l.length := by
  induction l generalizing acc with
  | nil => simp [chainValue]
  | cons c cs ih =>
    have hc := (h c (List.mem_cons_self c cs)).val_le
    have hcs : ∀ d ∈ cs, IsBuilderDigit d := fun d hd => h d (List.mem_cons_of_mem c hd)
    have h1 := ih hcs (10 * acc + (c.toNat - 48))
    have h2 : (10 * acc + (c.toNat - 48) + 1) * 10 ^ cs.length
        ≤ (acc + 1) * 10 ^ (c :: cs).length := by
      rw [List.length_cons, pow_succ]
      have : 10 * acc + (c.toNat - 48) + 1 ≤ (acc + 1) * 10 := by omega
      calc (10 * acc + (c.toNat - 48) + 1) * 10 ^ cs.length
          ≤ ((acc + 1) * 10) * 10 ^ cs.length := Nat.mul_le_mul_right _ this
        _ = (acc + 1) * (10 ^ cs.length * 10) := by ring
    simp only [chainValue, List.foldl_cons] at h1 ⊢
    exact lt_of_lt_of_le h1 h2

theorem chainValue_pos (l : List Char) (h : ∀ c ∈ l, IsBuilderDigit c) (hne : l ≠ []) :
    1 ≤ chainValue 0 l := by
  cases l with
  | nil => exact absurd rfl hne
  | cons c cs =>
    have hc := (h c (List.mem_cons_self c cs)).val_pos
    have := chainValue_ge cs (10 * 0 + (c.toNat - 48))
    simp only [chainValue, List.foldl_cons] at this ⊢
    omega

theorem chainValue_lt_of_ok (l : List Char) (h : ChainOK l) : chainValue 0 l < 1000000 := by
  have h1 := chainValue_lt l h.1 0
  have h2 : 10 ^ l.length ≤ 10 ^ 6 := Nat.pow_le_pow_right (by decide) h.2
  calc chainValue 0 l < (0 + 1) * 10 ^ l.length := h1
    _ = 10 ^ l.length := by ring
    _ ≤ 10 ^ 6 := h2
    _ = 1000000 := by norm_num

theorem stoi_of_ok (l : List Char) (h : ChainOK l) (hne : l ≠ []) :
    stoi l = some (chainValue 0 l : Int) := by
  cases l with
  | nil => exact absurd rfl hne
  | cons c cs =>
    have hc : IsBuilderDigit c := h.1 c (List.mem_cons_self c cs)
    have hd : (c :: cs).dropWhile isspace = c :: cs := by
      simp [List.dropWhile, hc.not_isspace]
    have hlt := chainValue_lt_of_ok (c :: cs) h
    have hp := parseDigits_eq_chainValue (c :: cs) h.1 0
    unfold stoi
    rw [hd, hc.parseSign]
    simp only [hc.isdigit, if_true, hp, Bool.false_eq_true, if_false]
    have hr : INT_MIN ≤ (chainValue 0 (c :: cs) : Int) ∧ (chainValue 0 (c :: cs) : Int) ≤ INT_MAX := by
      unfold INT_MIN INT_MAX
      constructor <;> omega
    simp [hr]

/-! ## Lemmas on the store operations -/

@[simp] theorem World.log_gambit (w : World) (m : String) : (w.log m).gambit = w.gambit := rfl

@[simp] theorem World.log_out (w : World) (m : String) :
    (w.log m).out = w.out ++ [Output.logInfo m] := rfl

@[simp] theorem NotifyAnimationGraph_gambit (p : PlayerCharacter) (n : String) (w : World) :
    (p.NotifyAnimationGraph n w).gambit = w.gambit := rfl

@[simp] theorem NotifyAnimationGraph_out (p : PlayerCharacter) (n : String) (w : World) :
    (p.NotifyAnimationGraph n w).out = w.out ++ [Output.NotifyAnimationGraph n] := rfl

theorem GetComboState_of_nil (w : World) (h : w.gambit.combo_chain = []) :
    Gambit.GetComboState w = (0, w) := by
  simp [Gambit.GetComboState, h]

theorem GetComboState_of_ok (w : World) (h : ChainOK w.gambit.combo_chain)
    (hne : w.gambit.combo_chain ≠ []) :
    Gambit.GetComboState w = ((chainValue 0 w.gambit.combo_chain : Int), w) := by
  have hs := stoi_of_ok _ h hne
  simp [Gambit.GetComboState, hne, hs]

theorem GetComboState_ok (w : World) (h : ChainOK w.gambit.combo_chain) :
    Gambit.GetComboState w = ((chainValue 0 w.gambit.combo_chain : Int), w) := by
  by_cases hne : w.gambit.combo_chain = []
  · rw [GetComboState_of_nil w hne, hne]; rfl
  · exact GetComboState_of_ok w h hne

theorem GetComboState_snd_gambit (w : World) : (Gambit.GetComboState w).2.gambit = w.gambit := by
  unfold Gambit.GetComboState
  split
  · rfl
  · split <;> rfl

theorem GetComboState_fst_congr (w1 w2 : World) (h : w1.gambit = w2.gambit) :
    (Gambit.GetComboState w1).1 = (Gambit.GetComboState w2).1 := by
  unfold Gambit.GetComboState
  rw [h]
  split
  · rfl
  · split <;> rfl

theorem dispatch_gambit (p : PlayerCharacter) (v : Int) (w : World) :
    (execute_gambit.dispatch p v w).gambit = w.gambit := by
  unfold execute_gambit.dispatch
  split_ifs <;> rfl

theorem execute_gambit_chain (p : PlayerCharacter) (w : World) :
    (execute_gambit p w).gambit.combo_chain =
      if (Gambit.GetComboState w).1 = 0 then w.gambit.combo_chain else [] := by
  unfold execute_gambit
  by_cases h : (Gambit.GetComboState w).1 = 0
  · simp [h, GetComboState_snd_gambit]
  · simp [h, Gambit.Clear]

theorem Add_A_chain (w : World) :
    (Gambit.Add_A w).gambit.combo_chain =
      if w.gambit.combo_chain.length ≥ 6 then w.gambit.combo_chain
      else w.gambit.combo_chain ++ [Char.ofNat 49] := by
  unfold Gambit.Add_A
  split_ifs <;> rfl

theorem Add_B_chain (w : World) :
    (Gambit.Add_B w).gambit.combo_chain =
      if w.gambit.combo_chain.length ≥ 6 then w.gambit.combo_chain
      else w.gambit.combo_chain ++ [Char.ofNat 50] := by
  unfold Gambit.Add_B
  split_ifs <;> rfl

theorem Token.append_chain (t : Token) (w : World) :
    (t.append w).gambit.combo_chain =
      if w.gambit.combo_chain.length ≥ 6 then w.gambit.combo_chain
      else w.gambit.combo_chain ++ [t.char] := by
  cases t
  · exact Add_A_chain w
  · exact Add_B_chain w

theorem ChainOK.nil : ChainOK [] := ⟨by simp, by simp⟩

theorem ChainOK.snoc {l : List Char} (h : ChainOK l) (hlen : ¬ l.length ≥ 6) {c : Char}
    (hc : IsBuilderDigit c) : ChainOK (l ++ [c]) := by
  refine ⟨?_, ?_⟩
  · intro d hd
    rcases List.mem_append.mp hd with hd | hd
    · exact h.1 d hd
    · rw [List.mem_singleton.mp hd]; exact hc
  · simp only [List.length_append, List.length_singleton]; omega

theorem Add_A_ok (w : World) (h : ChainOK w.gambit.combo_chain) :
    ChainOK (Gambit.Add_A w).gambit.combo_chain := by
  rw [Add_A_chain]
  split_ifs with hl
  · exact h
  · exact h.snoc hl (Or.inl rfl)

theorem Add_B_ok (w : World) (h : ChainOK w.gambit.combo_chain) :
    ChainOK (Gambit.Add_B w).gambit.combo_chain := by
  rw [Add_B_chain]
  split_ifs with hl
  · exact h
  · exact h.snoc hl (Or.inr rfl)

theorem execute_gambit_ok (p : PlayerCharacter) (w : World) (h : ChainOK w.gambit.combo_chain) :
    ChainOK (execute_gambit p w).gambit.combo_chain := by
  rw [execute_gambit_chain]
  split_ifs
  · exact h
  · exact ChainOK.nil

theorem Op.apply_ok (p : PlayerCharacter) (op : Op) (w : World)
    (h : ChainOK w.gambit.combo_chain) : ChainOK (op.apply p w).gambit.combo_chain := by
  cases op
  · exact Add_A_ok w h
  · exact Add_B_ok w h
  · exact ChainOK.nil
  · exact execute_gambit_ok p w h

theorem runOps_ok (p : PlayerCharacter) (ops : List Op) (w : World)
    (h : ChainOK w.gambit.combo_chain) : ChainOK (runOps p ops w).gambit.combo_chain := by
  induction ops generalizing w with
  | nil => exact h
  | cons op rest ih => exact ih (op.apply p w) (Op.apply_ok p op w h)

theorem Reachable.chainOK {w : World} (h : Reachable w) : ChainOK w.gambit.combo_chain := by
  obtain ⟨ops, rfl⟩ := h
  exact runOps_ok _ ops World.init ChainOK.nil

theorem appendAll_chain (ts : List Token) (w : World)
    (h : w.gambit.combo_chain.length + ts.length ≤ 6) :
    (appendAll ts w).gambit.combo_chain = w.gambit.combo_chain ++ ts.map Token.char := by
  induction ts generalizing w with
  | nil => simp [appendAll]
  | cons t rest ih =>
    have hl : ¬ w.gambit.combo_chain.length ≥ 6 := by
      simp only [List.length_cons] at h; omega
    have hstep : (t.append w).gambit.combo_chain = w.gambit.combo_chain ++ [t.char] := by
      rw [Token.append_chain, if_neg hl]
    have hlen : (t.append w).gambit.combo_chain.length + rest.length ≤ 6 := by
      rw [hstep]; simp only [List.length_append, List.length_cons, List.length_nil] at h ⊢
      omega
    have := ih (t.append w) hlen
    simp only [appendAll, List.foldl_cons] at this ⊢
    rw [this, hstep]
    simp

theorem chainValue_map_char (ts : List Token) (acc : Nat) :
    ((chainValue acc (ts.map Token.char) : Nat) : Int)
      = ts.foldl (fun v t => 10 * v + t.digit) (acc : Int) := by
  induction ts generalizing acc with
  | nil => rfl
  | cons t rest ih =>
    have := ih (10 * acc + (t.char.toNat - 48))
    simp only [chainValue, List.map_cons, List.foldl_cons] at this ⊢
    rw [this]
    congr 1
    rw [← Token.char_val t]
    push_cast
    rfl

theorem map_char_ok (ts : List Token) (h : ts.length ≤ 6) : ChainOK (ts.map Token.char) := by
  refine ⟨?_, by simpa using h⟩
  intro c hc
  obtain ⟨t, _, rfl⟩ := List.mem_map.mp hc
  exact t.char_isBuilderDigit

theorem execute_gambit_of_ok (p : PlayerCharacter) (w : World)
    (h : ChainOK w.gambit.combo_chain) (hne : w.gambit.combo_chain ≠ []) :
    execute_gambit p w =
      Gambit.Clear (execute_gambit.dispatch p (Gambit.GetComboState w).1
        (w.log ("Attempting Cashout for ID: " ++ toString (Gambit.GetComboState w).1))) := by
  have hv := GetComboState_of_ok w h hne
  have hpos := chainValue_pos _ h.1 hne
  have hz : ¬ ((chainValue 0 w.gambit.combo_chain : Nat) : Int) = 0 := by omega
  unfold execute_gambit
  simp only [hv, hz, if_false]

theorem animSignals_append (l1 l2 : List Output) :
    animSignals (l1 ++ l2) = animSignals l1 ++ animSignals l2 := by
  induction l1 with
  | nil => rfl
  | cons o rest ih =>
    cases o with
    | logInfo m => simpa [animSignals] using ih
    | NotifyAnimationGraph n => simpa [animSignals] using ih

theorem GetComboState_snd_animSignals (w : World) :
    animSignals (Gambit.GetComboState w).2.out = animSignals w.out := by
  unfold Gambit.GetComboState
  split
  · rfl
  · split
    · rfl
    · simp [animSignals_append, animSignals]

theorem dispatch_animSignals (p : PlayerCharacter) (v : Int) (w : World) :
    animSignals (execute_gambit.dispatch p v w).out =
      animSignals w.out ++
        (if v = 112 then ["IdleForceDefaultState", "ShoutStart", "ShoutRelease",
          "IdleForceDefaultState"] else []) := by
  unfold execute_gambit.dispatch
  by_cases h1 : v = 11
  · subst h1; simp [animSignals_append, animSignals]
  · by_cases h2 : v = 22
    · subst h2; simp [animSignals_append, animSignals]
    · by_cases h3 : v = 112
      · subst h3; simp [animSignals_append, animSignals]
      · by_cases h4 : v = 121
        · subst h4; simp [animSignals_append, animSignals]
        · simp [h1, h2, h3, h4, animSignals_append, animSignals]

theorem GetComboState_snd_out_length (w : World) :
    w.out.length ≤ (Gambit.GetComboState w).2.out.length := by
  unfold Gambit.GetComboState
  split
  · exact Nat.le_refl _
  · split
    · exact Nat.le_refl _
    · simp

theorem dispatch_out_length (p : PlayerCharacter) (v : Int) (w : World) :
    w.out.length ≤ (execute_gambit.dispatch p v w).out.length := by
  unfold execute_gambit.dispatch
  split_ifs <;> simp

theorem execute_gambit_out_length (p : PlayerCharacter) (w : World) :
    w.out.length ≤ (execute_gambit p w).out.length := by
  have h1 := GetComboState_snd_out_length w
  unfold execute_gambit
  by_cases h : (Gambit.GetComboState w).1 = 0
  · simpa [h] using h1
  · have h2 := dispatch_out_length p (Gambit.GetComboState w).1
      ((Gambit.GetComboState w).2.log
        ("Attempting Cashout for ID: " ++ toString (Gambit.GetComboState w).1))
    simp only [h, if_false, Gambit.Clear, World.log_out, List.length_append,
      List.length_singleton] at h2 ⊢
    omega

theorem find_isSome_iff (hay needle : List Char) :
    (find hay needle).isSome = true ↔ needle <:+: hay := by
  induction hay with
  | nil =>
    unfold find
    cases needle with
    | nil => simp
    | cons c cs => simp
  | cons c cs ih =>
    unfold find
    by_cases hp : needle.isPrefixOf (c :: cs) = true
    · simp only [hp, if_true, Option.isSome_some, true_iff]
      exact (List.isPrefixOf_iff_prefix.mp hp).isInfix
    · have hnp : ¬ needle <+: c :: cs := fun h => hp (List.isPrefixOf_iff_prefix.mpr h)
      simp only [hp, if_false, Option.isSome_map', Bool.false_eq_true]
      rw [ih, List.infix_cons_iff]
      constructor
      · exact fun h => Or.inr h
      · rintro (h | h)
        · exact absurd h hnp
        · exact h

/-! ## The claims -/

/-- C1: for every list of at most 6 tokens appended in order with `Add_A` / `Add_B` to a
freshly constructed store, `GetComboState` returns the integer whose decimal digits are the
tokens' digits in append order (Normal is 1, Bash is 2), that is the left fold
`v ↦ 10 * v + digit` from 0. -/
theorem C1_decode_is_digit_concatenation (ts : List Token) (h : ts.length ≤ 6) :
    (Gambit.GetComboState (appendAll ts World.init)).1
      = ts.foldl (fun v t => 10 * v + t.digit) 0 := by
  have hc : (appendAll ts World.init).gambit.combo_chain = ts.map Token.char := by
    have := appendAll_chain ts World.init (by simpa [World.init] using h)
    simpa [World.init] using this
  have hok : ChainOK (appendAll ts World.init).gambit.combo_chain := by
    rw [hc]; exact map_char_ok ts h
  rw [GetComboState_ok _ hok, hc]
  exact chainValue_map_char ts 0

/-- Witness for C1 at Normal, Bash, Bash, Normal, Bash, Normal: the decoded value is 122121. -/
theorem C1_decode_is_digit_concatenation_witness :
    [Token.Normal, Token.Bash, Token.Bash, Token.Normal, Token.Bash, Token.Normal].length ≤ 6 ∧
    (Gambit.GetComboState (appendAll
        [Token.Normal, Token.Bash, Token.Bash, Token.Normal, Token.Bash, Token.Normal]
        World.init)).1 = 122121 :=
  ⟨by decide, C1_decode_is_digit_concatenation _ (by decide)⟩

/-- C2: in every state reachable from the initial empty store by any finite sequence of
`Add_A`, `Add_B`, `Clear` and `execute_gambit`, the length of the combo sequence is between 0
and 6 inclusive. -/
theorem C2_length_within_bounds (w : World) (h : Reachable w) :
    0 ≤ w.gambit.combo_chain.length ∧ w.gambit.combo_chain.length ≤ 6 :=
  ⟨Nat.zero_le _, (Reachable.chainOK h).2⟩

/-- Witness for C2: the state after eight `Add_B` calls and one `Add_A` call is reachable and
its sequence has length at most 6. -/
theorem C2_length_within_bounds_witness :
    Reachable (runOps PlayerCharacter.singleton
      [Op.Add_B, Op.Add_B, Op.Add_B, Op.Add_B, Op.Add_B, Op.Add_B, Op.Add_B, Op.Add_B, Op.Add_A]
      World.init) ∧
    (runOps PlayerCharacter.singleton
      [Op.Add_B, Op.Add_B, Op.Add_B, Op.Add_B, Op.Add_B, Op.Add_B, Op.Add_B, Op.Add_B, Op.Add_A]
      World.init).gambit.combo_chain.length ≤ 6 :=
  ⟨⟨_, rfl⟩, (C2_length_within_bounds _ ⟨_, rfl⟩).2⟩

/-- C3: for every store whose sequence has length 6, `Add_A` and `Add_B` each leave the
sequence exactly as it was, `GetComboState` before and after the rejected append are equal,
and the only output is the single line "Max Combo Length Reached"; and appending Normal 7
times to a fresh store leaves the sequence at length 6, equal to the sequence after 6
appends, with decoded value 111111. -/
theorem C3_append_at_limit_rejected (w : World) (h : w.gambit.combo_chain.length = 6) :
    ((Gambit.Add_A w).gambit = w.gambit ∧ (Gambit.Add_B w).gambit = w.gambit) ∧
    ((Gambit.GetComboState (Gambit.Add_A w)).1 = (Gambit.GetComboState w).1 ∧
      (Gambit.GetComboState (Gambit.Add_B w)).1 = (Gambit.GetComboState w).1) ∧
    ((Gambit.Add_A w).out = w.out ++ [Output.logInfo "Max Combo Length Reached"] ∧
      (Gambit.Add_B w).out = w.out ++ [Output.logInfo "Max Combo Length Reached"]) ∧
    ((appendAll (List.replicate 7 Token.Normal) World.init).gambit.combo_chain.length = 6 ∧
      (appendAll (List.replicate 7 Token.Normal) World.init).gambit
        = (appendAll (List.replicate 6 Token.Normal) World.init).gambit ∧
      (Gambit.GetComboState (appendAll (List.replicate 7 Token.Normal) World.init)).1
        = 111111) := by
  have hA : Gambit.Add_A w = w.log "Max Combo Length Reached" := by
    unfold Gambit.Add_A
    rw [if_pos (by omega)]
  have hB : Gambit.Add_B w = w.log "Max Combo Length Reached" := by
    unfold Gambit.Add_B
    rw [if_pos (by omega)]
  refine ⟨⟨?_, ?_⟩, ⟨?_, ?_⟩, ⟨?_, ?_⟩, ?_⟩
  · rw [hA]; rfl
  · rw [hB]; rfl
  · exact GetComboState_fst_congr _ _ (by rw [hA]; rfl)
  · exact GetComboState_fst_congr _ _ (by rw [hB]; rfl)
  · rw [hA]; rfl
  · rw [hB]; rfl
  · decide

/-- Witness for C3 at the full store holding six Bash tokens. -/
theorem C3_append_at_limit_rejected_witness :
    (appendAll (List.replicate 6 Token.Bash) World.init).gambit.combo_chain.length = 6 ∧
    (Gambit.Add_A (appendAll (List.replicate 6 Token.Bash) World.init)).gambit
      = (appendAll (List.replicate 6 Token.Bash) World.init).gambit :=
  ⟨by decide, (C3_append_at_limit_rejected _ (by decide)).1.1⟩

/-- C4: for every reachable store state whose sequence is non-empty, the sequence is empty
after `execute_gambit` returns, whether or not the decoded value is one of 11, 22, 112,
121. -/
theorem C4_execute_empties_sequence (p : PlayerCharacter) (w : World) (h : Reachable w)
    (hne : w.gambit.combo_chain ≠ []) :
    (execute_gambit p w).gambit.combo_chain = [] := by
  rw [execute_gambit_of_ok p w (Reachable.chainOK h) hne]
  rfl

/-- Witness for C4 at the reachable state holding Bash, Normal (decoded value 21, not a table
entry). -/
theorem C4_execute_empties_sequence_witness :
    Reachable (runOps PlayerCharacter.singleton [Op.Add_B, Op.Add_A] World.init) ∧
    (runOps PlayerCharacter.singleton [Op.Add_B, Op.Add_A] World.init).gambit.combo_chain ≠ [] ∧
    (execute_gambit PlayerCharacter.singleton
      (runOps PlayerCharacter.singleton [Op.Add_B, Op.Add_A] World.init)).gambit.combo_chain
        = [] :=
  ⟨⟨_, rfl⟩, by decide,
    C4_execute_empties_sequence _ _ ⟨_, rfl⟩ (by decide)⟩

/-- C5: when the sequence is empty, `execute_gambit` returns the state it was given: the
sequence stays empty and nothing at all is emitted, so no effect handler runs, no animation
signal is sent and the line "Gambit Chain Cleared." is not produced. -/
theorem C5_execute_on_empty_is_noop (p : PlayerCharacter) (w : World)
    (h : w.gambit.combo_chain = []) :
    execute_gambit p w = w ∧ (execute_gambit p w).gambit.combo_chain = [] ∧
      (execute_gambit p w).out = w.out := by
  have he : execute_gambit p w = w := by
    unfold execute_gambit
    simp [GetComboState_of_nil w h]
  rw [he]
  exact ⟨rfl, h, rfl⟩

/-- Witness for C5 at the fresh store. -/
theorem C5_execute_on_empty_is_noop_witness :
    World.init.gambit.combo_chain = [] ∧
    execute_gambit PlayerCharacter.singleton World.init = World.init :=
  ⟨rfl, (C5_execute_on_empty_is_noop _ _ rfl).1⟩

/-- C6: for the sequences Normal Normal, Bash Bash, Normal Normal Bash and Normal Bash Normal
built on a fresh store, `GetComboState` is 11, 22, 112 and 121, and `execute_gambit` emits,
after its cashout line, exactly that value's own effect (Deft Strike, Defensive Strike,
Perseverance with its four signals, The Boot) once, no other effect and not the
"Unknown Combo." line, and leaves the sequence empty. -/
theorem C6_table_entries_dispatch :
    ((Gambit.GetComboState (appendAll [Token.Normal, Token.Normal] World.init)).1 = 11 ∧
      execute_gambit PlayerCharacter.singleton (appendAll [Token.Normal, Token.Normal] World.init)
        = ⟨⟨[]⟩, (appendAll [Token.Normal, Token.Normal] World.init).out ++
            [Output.logInfo "Attempting Cashout for ID: 11",
             Output.logInfo "Effect: Deft Strike (Self Heal)",
             Output.logInfo "Gambit Chain Cleared."]⟩) ∧
    ((Gambit.GetComboState (appendAll [Token.Bash, Token.Bash] World.init)).1 = 22 ∧
      execute_gambit PlayerCharacter.singleton (appendAll [Token.Bash, Token.Bash] World.init)
        = ⟨⟨[]⟩, (appendAll [Token.Bash, Token.Bash] World.init).out ++
            [Output.logInfo "Attempting Cashout for ID: 22",
             Output.logInfo "Effect: Defensive Strike (Stamina Surge)",
             Output.logInfo "Gambit Chain Cleared."]⟩) ∧
    ((Gambit.GetComboState
        (appendAll [Token.Normal, Token.Normal, Token.Bash] World.init)).1 = 112 ∧
      execute_gambit PlayerCharacter.singleton
          (appendAll [Token.Normal, Token.Normal, Token.Bash] World.init)
        = ⟨⟨[]⟩, (appendAll [Token.Normal, Token.Normal, Token.Bash] World.init).out ++
            [Output.logInfo "Attempting Cashout for ID: 112",
             Output.logInfo "Effect: Perseverance",
             Output.NotifyAnimationGraph "IdleForceDefaultState",
             Output.NotifyAnimationGraph "ShoutStart",
             Output.NotifyAnimationGraph "ShoutRelease",
             Output.NotifyAnimationGraph "IdleForceDefaultState",
             Output.logInfo "Gambit Chain Cleared."]⟩) ∧
    ((Gambit.GetComboState
        (appendAll [Token.Normal, Token.Bash, Token.Normal] World.init)).1 = 121 ∧
      execute_gambit PlayerCharacter.singleton
          (appendAll [Token.Normal, Token.Bash, Token.Normal] World.init)
        = ⟨⟨[]⟩, (appendAll [Token.Normal, Token.Bash, Token.Normal] World.init).out ++
            [Output.logInfo "Attempting Cashout for ID: 121",
             Output.logInfo "Effect: The Boot",
             Output.logInfo "Gambit Chain Cleared."]⟩) := by
  refine ⟨⟨?_, ?_⟩, ⟨?_, ?_⟩, ⟨?_, ?_⟩, ⟨?_, ?_⟩⟩ <;> decide

/-- C7: `execute_gambit` adds to the animation signals sent so far exactly
IdleForceDefaultState, ShoutStart, ShoutRelease, IdleForceDefaultState, in that order, when
the decoded value is 112, and adds no animation signal in every other state. -/
theorem C7_animation_signals_only_for_112 (p : PlayerCharacter) (w : World) :
    animSignals (execute_gambit p w).out =
      animSignals w.out ++
        (if (Gambit.GetComboState w).1 = 112 then
          ["IdleForceDefaultState", "ShoutStart", "ShoutRelease", "IdleForceDefaultState"]
        else []) := by
  have hs := GetComboState_snd_animSignals w
  unfold execute_gambit
  by_cases h0 : (Gambit.GetComboState w).1 = 0
  · have hne : ¬ (Gambit.GetComboState w).1 = 112 := by omega
    simp [h0, hs]
  · simp only [h0, if_false, Gambit.Clear, World.log_out, animSignals_append,
      dispatch_animSignals, hs]
    simp [animSignals]

/-- C8: for every reachable non-empty sequence whose decoded value is none of 11, 22, 112,
121, `execute_gambit` emits exactly the cashout line, the line "Unknown Combo." and the line
"Gambit Chain Cleared." (so no effect line and no animation signal) and leaves the sequence
empty. -/
theorem C8_unknown_combo_resets (p : PlayerCharacter) (w : World) (h : Reachable w)
    (hne : w.gambit.combo_chain ≠ [])
    (h11 : (Gambit.GetComboState w).1 ≠ 11) (h22 : (Gambit.GetComboState w).1 ≠ 22)
    (h112 : (Gambit.GetComboState w).1 ≠ 112) (h121 : (Gambit.GetComboState w).1 ≠ 121) :
    execute_gambit p w =
        ⟨⟨[]⟩, w.out ++
          [Output.logInfo ("Attempting Cashout for ID: " ++ toString (Gambit.GetComboState w).1),
           Output.logInfo "Unknown Combo.",
           Output.logInfo "Gambit Chain Cleared."]⟩ ∧
      animSignals (execute_gambit p w).out = animSignals w.out := by
  have he := execute_gambit_of_ok p w (Reachable.chainOK h) hne
  have hd : execute_gambit.dispatch p (Gambit.GetComboState w).1
      (w.log ("Attempting Cashout for ID: " ++ toString (Gambit.GetComboState w).1))
      = (w.log ("Attempting Cashout for ID: " ++ toString (Gambit.GetComboState w).1)).log
          "Unknown Combo." := by
    unfold execute_gambit.dispatch
    simp only [h11, h22, h112, h121, if_false]
  rw [he, hd]
  constructor
  · simp [Gambit.Clear, World.log]
  · simp [Gambit.Clear, World.log, animSignals_append, animSignals]

/-- Witness for C8 at the reachable state holding Bash, Normal, whose decoded value is 21. -/
theorem C8_unknown_combo_resets_witness :
    Reachable (runOps PlayerCharacter.singleton [Op.Add_B, Op.Add_A] World.init) ∧
    (execute_gambit PlayerCharacter.singleton
        (runOps PlayerCharacter.singleton [Op.Add_B, Op.Add_A] World.init)).out =
      (runOps PlayerCharacter.singleton [Op.Add_B, Op.Add_A] World.init).out ++
        [Output.logInfo "Attempting Cashout for ID: 21",
         Output.logInfo "Unknown Combo.",
         Output.logInfo "Gambit Chain Cleared."] :=
  ⟨⟨_, rfl⟩,
    congrArg World.out (C8_unknown_combo_resets PlayerCharacter.singleton _ ⟨_, rfl⟩
      (by decide) (by decide) (by decide) (by decide) (by decide)).1⟩

/-- C9, as stated, fails: the tag "XPowerAttack_Start_End" is not equal to
"PowerAttack_Start_End" (it only contains it), the holder is the player and the player
singleton is available, yet `AnimEventSink::ProcessEvent` runs `execute_gambit`: the pending
sequence Normal, Normal is cashed out as Deft Strike and cleared. -/
theorem C9_exact_tag_counterexample :
    "XPowerAttack_Start_End" ≠ "PowerAttack_Start_End" ∧
    (appendAll [Token.Normal, Token.Normal] World.init).gambit.combo_chain
      = [Char.ofNat 49, Char.ofNat 49] ∧
    AnimEventSink.ProcessEvent (some PlayerCharacter.singleton)
        (some ⟨"XPowerAttack_Start_End", some ⟨true, true⟩⟩)
        (appendAll [Token.Normal, Token.Normal] World.init)
      = (BSEventNotifyControl.kContinue,
          execute_gambit PlayerCharacter.singleton
            ((appendAll [Token.Normal, Token.Normal] World.init).log
              "We are now going to do execute_gambit")) ∧
    (AnimEventSink.ProcessEvent (some PlayerCharacter.singleton)
        (some ⟨"XPowerAttack_Start_End", some ⟨true, true⟩⟩)
        (appendAll [Token.Normal, Token.Normal] World.init)).2
      = ⟨⟨[]⟩, (appendAll [Token.Normal, Token.Normal] World.init).out ++
          [Output.logInfo "We are now going to do execute_gambit",
           Output.logInfo "Attempting Cashout for ID: 11",
           Output.logInfo "Effect: Deft Strike (Self Heal)",
           Output.logInfo "Gambit Chain Cleared."]⟩ := by
  refine ⟨?_, ?_, ?_, ?_⟩ <;> decide

/-- C9, amended: for every animation event whose holder is the player, with the player
singleton available, `AnimEventSink::ProcessEvent` runs `execute_gambit` (once, on the state
after its own announcement line) if the tag contains the text "PowerAttack_Start_End" as a
contiguous substring, and returns the state untouched if it does not; the two outcomes are
always different states, so the cashout runs if and only if the tag contains that text. -/
theorem C9_substring_tag_triggers_cashout (p : PlayerCharacter) (ev : BSAnimationGraphEvent)
    (holder : TESObjectREFR) (w : World) (hh : ev.holder = some holder)
    (hp : holder.IsPlayerRef = true) :
    AnimEventSink.ProcessEvent (some p) (some ev) w
        = (BSEventNotifyControl.kContinue,
            if "PowerAttack_Start_End".data <:+: ev.tag.data then
              execute_gambit p (w.log "We are now going to do execute_gambit")
            else w) ∧
      execute_gambit p (w.log "We are now going to do execute_gambit") ≠ w := by
  constructor
  · unfold AnimEventSink.ProcessEvent
    simp only [hh, hp, Bool.not_true, Bool.false_eq_true, if_false]
    by_cases hi : "PowerAttack_Start_End".data <:+: ev.tag.data
    · rw [if_pos ((find_isSome_iff _ _).mpr hi), if_pos hi]
    · have hf : ¬ (find ev.tag.data "PowerAttack_Start_End".data).isSome = true :=
        fun h => hi ((find_isSome_iff _ _).mp h)
      rw [if_neg hf, if_neg hi]
  · intro he
    have hl := execute_gambit_out_length p (w.log "We are now going to do execute_gambit")
    rw [he] at hl
    simp at hl

/-- Witness for C9 amended: the exact tag "PowerAttack_Start_End" held by the player, on the
fresh store. -/
theorem C9_substring_tag_triggers_cashout_witness :
    (BSAnimationGraphEvent.mk "PowerAttack_Start_End" (some ⟨true, false⟩)).holder
      = some ⟨true, false⟩ ∧
    AnimEventSink.ProcessEvent (some PlayerCharacter.singleton)
        (some ⟨"PowerAttack_Start_End", some ⟨true, false⟩⟩) World.init
      = (BSEventNotifyControl.kContinue,
          if "PowerAttack_Start_End".data <:+: "PowerAttack_Start_End".data then
            execute_gambit PlayerCharacter.singleton
              (World.init.log "We are now going to do execute_gambit")
          else World.init) :=
  ⟨rfl, (C9_substring_tag_triggers_cashout PlayerCharacter.singleton
    ⟨"PowerAttack_Start_End", some ⟨true, false⟩⟩ ⟨true, false⟩ World.init rfl rfl).1⟩

/-- C10: for every hit event flagged as a power attack, whatever its bash flag, its source
item, its cause and target and the current store state, `HitEventSink::ProcessEvent` returns
the state it was given: the combo sequence is unchanged and nothing is emitted. -/
theorem C10_power_attack_never_appends (LookupByID : Nat → Option TESForm) (ev : TESHitEvent)
    (w : World) (h : ev.flags.kPowerAttack = true) :
    (HitEventSink.ProcessEvent LookupByID (some ev) w).2 = w ∧
      (HitEventSink.ProcessEvent LookupByID (some ev) w).2.gambit.combo_chain
        = w.gambit.combo_chain := by
  have he : (HitEventSink.ProcessEvent LookupByID (some ev) w).2 = w := by
    unfold HitEventSink.ProcessEvent
    by_cases hv : HitEventSink.EventValidate (some ev) = true
    · simp [hv, h]
    · simp [hv]
  rw [he]
  exact ⟨rfl, rfl⟩

/-- Witness for C10: a validated player hit on an actor with a melee weapon, flagged both
power attack and bash attack, on the store holding Normal. -/
theorem C10_power_attack_never_appends_witness :
    (TESHitEvent.mk (some ⟨true, false⟩) (some ⟨false, true⟩) 7 ⟨true, true⟩).flags.kPowerAttack
      = true ∧
    (HitEventSink.ProcessEvent (fun _ => some ⟨true, some ⟨true⟩⟩)
        (some ⟨some ⟨true, false⟩, some ⟨false, true⟩, 7, ⟨true, true⟩⟩)
        (Gambit.Add_A World.init)).2 = Gambit.Add_A World.init :=
  ⟨rfl, (C10_power_attack_never_appends (fun _ => some ⟨true, some ⟨true⟩⟩)
    ⟨some ⟨true, false⟩, some ⟨false, true⟩, 7, ⟨true, true⟩⟩ (Gambit.Add_A World.init) rfl).1⟩

/-! ## Further lemmas: appends, value bounds and injectivity of the decoding -/

theorem Add_A_out_length (w : World) : (Gambit.Add_A w).out.length = w.out.length + 1 := by
  unfold Gambit.Add_A
  split_ifs <;> simp

theorem Add_B_out_length (w : World) : (Gambit.Add_B w).out.length = w.out.length + 1 := by
  unfold Gambit.Add_B
  split_ifs <;> simp

theorem Add_A_animSignals (w : World) : animSignals (Gambit.Add_A w).out = animSignals w.out := by
  unfold Gambit.Add_A
  split_ifs <;> simp [animSignals_append, animSignals]

theorem Add_B_animSignals (w : World) : animSignals (Gambit.Add_B w).out = animSignals w.out := by
  unfold Gambit.Add_B
  split_ifs <;> simp [animSignals_append, animSignals]

theorem chainValue_snoc (acc : Nat) (l : List Char) (c : Char) :
    chainValue acc (l ++ [c]) = 10 * chainValue acc l + (c.toNat - 48) := by
  simp [chainValue, List.foldl_append]

theorem IsBuilderDigit.eq_of_val {c d : Char} (hc : IsBuilderDigit c) (hd : IsBuilderDigit d)
    (h : c.toNat - 48 = d.toNat - 48) : c = d := by
  rcases hc with hc | hc <;> rcases hd with hd | hd <;> subst hc <;> subst hd
  · rfl
  · exact absurd h (by decide)
  · exact absurd h (by decide)
  · rfl

theorem chainValue_inj (l1 l2 : List Char) (h1 : ∀ c ∈ l1, IsBuilderDigit c)
    (h2 : ∀ c ∈ l2, IsBuilderDigit c) (h : chainValue 0 l1 = chainValue 0 l2) : l1 = l2 := by
  induction l1 using List.reverseRecOn generalizing l2 with
  | nil =>
    by_contra hne
    have := chainValue_pos l2 h2 (fun e => hne e.symm)
    have h0 : chainValue 0 ([] : List Char) = 0 := rfl
    omega
  | append_singleton r1 c1 ih =>
    rcases List.eq_nil_or_concat l2 with rfl | ⟨r2, c2, rfl⟩
    · have := chainValue_pos (r1 ++ [c1]) h1 (by simp)
      have h0 : chainValue 0 ([] : List Char) = 0 := rfl
      omega
    · rw [List.concat_eq_append] at h h2 ⊢
      have hc1 : IsBuilderDigit c1 := h1 c1 (by simp)
      have hc2 : IsBuilderDigit c2 := h2 c2 (by simp)
      have hr1 : ∀ c ∈ r1, IsBuilderDigit c := fun c hc => h1 c (by simp [hc])
      have hr2 : ∀ c ∈ r2, IsBuilderDigit c := fun c hc => h2 c (by simp [hc])
      rw [chainValue_snoc, chainValue_snoc] at h
      have b1 := hc1.val_le
      have b2 := hc2.val_le
      have hv : c1.toNat - 48 = c2.toNat - 48 := by omega
      have hr : chainValue 0 r1 = chainValue 0 r2 := by omega
      rw [ih r2 hr1 hr2 hr, hc1.eq_of_val hc2 hv]

theorem chainValue_bound (l : List Char) (h : ∀ c ∈ l, IsBuilderDigit c) (acc : Nat) :
    9 * chainValue acc l + 2 ≤ (9 * acc + 2) * 10 ^ l.length := by
  induction l generalizing acc with
  | nil => simp [chainValue]
  | cons c cs ih =>
    have hc := (h c (List.mem_cons_self c cs)).val_le
    have hcs : ∀ d ∈ cs, IsBuilderDigit d := fun d hd => h d (List.mem_cons_of_mem c hd)
    have h1 := ih hcs (10 * acc + (c.toNat - 48))
    have h2 : (9 * (10 * acc + (c.toNat - 48)) + 2) * 10 ^ cs.length
        ≤ (9 * acc + 2) * 10 ^ (c :: cs).length := by
      rw [List.length_cons, pow_succ]
      have : 9 * (10 * acc + (c.toNat - 48)) + 2 ≤ (9 * acc + 2) * 10 := by omega
      calc (9 * (10 * acc + (c.toNat - 48)) + 2) * 10 ^ cs.length
          ≤ ((9 * acc + 2) * 10) * 10 ^ cs.length := Nat.mul_le_mul_right _ this
        _ = (9 * acc + 2) * (10 ^ cs.length * 10) := by ring
    simp only [chainValue, List.foldl_cons] at h1 ⊢
    exact le_trans h1 h2

theorem chainValue_le_of_ok (l : List Char) (h : ChainOK l) : chainValue 0 l ≤ 222222 := by
  have h1 := chainValue_bound l h.1 0
  have h2 : 10 ^ l.length ≤ 10 ^ 6 := Nat.pow_le_pow_right (by decide) h.2
  have h3 : (10 : Nat) ^ 6 = 1000000 := by norm_num
  have h4 : (9 * 0 + 2) * 10 ^ l.length = 2 * 10 ^ l.length := by ring
  omega

theorem EventValidate_of_player_hit_actor (ev : TESHitEvent) (cause target : TESObjectREFR)
    (hc : ev.cause = some cause) (hcp : cause.IsPlayerRef = true)
    (ht : ev.target = some target) (hta : target.AsActor = true) :
    HitEventSink.EventValidate (some ev) = true := by
  simp [HitEventSink.EventValidate, hc, ht, hcp, hta]

theorem Add_A_ne_self (w : World) : Gambit.Add_A w ≠ w := by
  intro h
  have := Add_A_out_length w
  rw [h] at this
  omega

theorem Add_B_ne_self (w : World) : Gambit.Add_B w ≠ w := by
  intro h
  have := Add_B_out_length w
  rw [h] at this
  omega

theorem HitEventSink_ProcessEvent_cases (LookupByID : Nat → Option TESForm)
    (event : Option TESHitEvent) (w : World) :
    HitEventSink.ProcessEvent LookupByID event w = (BSEventNotifyControl.kContinue, w) ∨
    HitEventSink.ProcessEvent LookupByID event w
      = (BSEventNotifyControl.kContinue, Gambit.Add_A w) ∨
    HitEventSink.ProcessEvent LookupByID event w
      = (BSEventNotifyControl.kContinue, Gambit.Add_B w) := by
  unfold HitEventSink.ProcessEvent
  split_ifs
  · exact Or.inl rfl
  · cases event with
    | none => exact Or.inl rfl
    | some ev =>
      simp only
      split_ifs
      · exact Or.inl rfl
      · exact Or.inr (Or.inr rfl)
      · cases hL : LookupByID ev.source with
        | none => exact Or.inl rfl
        | some form =>
          simp only
          split_ifs
          · cases hW : form.AsWEAP with
            | none => exact Or.inl rfl
            | some weapon =>
              simp only
              split_ifs
              · exact Or.inr (Or.inl rfl)
              · exact Or.inl rfl
          · exact Or.inl rfl

/-! ## The claims on the two event sinks -/

/-- C11: for every hit event whose cause is the player and whose target is an actor, that is
not flagged power attack and is flagged bash attack, `HitEventSink::ProcessEvent` performs
exactly one `Add_B`, whatever the form lookup gives for the source; with sequence length
below 6 the sequence becomes the old sequence followed by the digit 2. -/
theorem C11_bash_hit_appends_bash (LookupByID : Nat → Option TESForm) (ev : TESHitEvent)
    (cause target : TESObjectREFR) (w : World)
    (hc : ev.cause = some cause) (hcp : cause.IsPlayerRef = true)
    (ht : ev.target = some target) (hta : target.AsActor = true)
    (hp : ev.flags.kPowerAttack = false) (hb : ev.flags.kBashAttack = true) :
    HitEventSink.ProcessEvent LookupByID (some ev) w
        = (BSEventNotifyControl.kContinue, Gambit.Add_B w) ∧
      (w.gambit.combo_chain.length < 6 →
        (HitEventSink.ProcessEvent LookupByID (some ev) w).2.gambit.combo_chain
          = w.gambit.combo_chain ++ [Char.ofNat 50]) := by
  have hv := EventValidate_of_player_hit_actor ev cause target hc hcp ht hta
  have he : HitEventSink.ProcessEvent LookupByID (some ev) w
      = (BSEventNotifyControl.kContinue, Gambit.Add_B w) := by
    unfold HitEventSink.ProcessEvent
    simp [hv, hp, hb]
  refine ⟨he, ?_⟩
  intro hl
  rw [he, Add_B_chain, if_neg (by omega)]

/-- Witness for C11: a bash hit by the player on an actor, its source unresolvable, on the
store holding Normal: the sequence becomes Normal, Bash. -/
theorem C11_bash_hit_appends_bash_witness :
    (HitEventSink.ProcessEvent (fun _ => none)
        (some ⟨some ⟨true, true⟩, some ⟨false, true⟩, 0, ⟨true, false⟩⟩)
        (Gambit.Add_A World.init)).2.gambit.combo_chain = [Char.ofNat 49, Char.ofNat 50] :=
  (C11_bash_hit_appends_bash (fun _ => none)
    ⟨some ⟨true, true⟩, some ⟨false, true⟩, 0, ⟨true, false⟩⟩ ⟨true, true⟩ ⟨false, true⟩
    (Gambit.Add_A World.init) rfl rfl rfl rfl rfl rfl).2 (by decide)

/-- C12: for every hit event whose cause is the player and whose target is an actor, flagged
neither power attack nor bash attack, `HitEventSink::ProcessEvent` performs `Add_A` when the
source resolves to a form that is a weapon and melee-capable, and otherwise (source
unresolvable, not a weapon, or a non-melee weapon) returns the state untouched, with nothing
logged. `Add_A` always changes the state, so the call happens if and only if the source is a
melee weapon; with sequence length below 6 the sequence becomes the old sequence followed by
the digit 1 if and only if the source is a melee weapon, and for any other source the
sequence is the old one. -/
theorem C12_normal_hit_appends_iff_melee_weapon (LookupByID : Nat → Option TESForm)
    (ev : TESHitEvent) (cause target : TESObjectREFR) (w : World)
    (hc : ev.cause = some cause) (hcp : cause.IsPlayerRef = true)
    (ht : ev.target = some target) (hta : target.AsActor = true)
    (hp : ev.flags.kPowerAttack = false) (hb : ev.flags.kBashAttack = false) :
    (HitEventSink.ProcessEvent LookupByID (some ev) w
        = (BSEventNotifyControl.kContinue,
            if isMeleeWeaponSource LookupByID ev.source = true then Gambit.Add_A w else w) ∧
      Gambit.Add_A w ≠ w) ∧
    (w.gambit.combo_chain.length < 6 → isMeleeWeaponSource LookupByID ev.source = true →
      (HitEventSink.ProcessEvent LookupByID (some ev) w).2.gambit.combo_chain
        = w.gambit.combo_chain ++ [Char.ofNat 49]) ∧
    (w.gambit.combo_chain.length < 6 →
      ((HitEventSink.ProcessEvent LookupByID (some ev) w).2.gambit.combo_chain
          = w.gambit.combo_chain ++ [Char.ofNat 49]
        ↔ isMeleeWeaponSource LookupByID ev.source = true)) ∧
    (isMeleeWeaponSource LookupByID ev.source = false →
      (HitEventSink.ProcessEvent LookupByID (some ev) w).2 = w ∧
      (HitEventSink.ProcessEvent LookupByID (some ev) w).2.gambit.combo_chain
        = w.gambit.combo_chain) := by
  have hv := EventValidate_of_player_hit_actor ev cause target hc hcp ht hta
  have he : HitEventSink.ProcessEvent LookupByID (some ev) w
      = (BSEventNotifyControl.kContinue,
          if isMeleeWeaponSource LookupByID ev.source = true then Gambit.Add_A w else w) := by
    unfold HitEventSink.ProcessEvent isMeleeWeaponSource
    simp only [hv, hp, hb, Bool.not_true, Bool.false_eq_true, if_false]
    cases hL : LookupByID ev.source with
    | none => simp
    | some form =>
      cases hW : form.AsWEAP with
      | none => cases hI : form.IsWeapon <;> simp [hW, hI]
      | some weapon =>
        cases hI : form.IsWeapon <;> cases hM : weapon.IsMelee <;> simp [hW, hI, hM]
  have hyes : w.gambit.combo_chain.length < 6 →
      isMeleeWeaponSource LookupByID ev.source = true →
      (HitEventSink.ProcessEvent LookupByID (some ev) w).2.gambit.combo_chain
        = w.gambit.combo_chain ++ [Char.ofNat 49] := by
    intro hl hm
    rw [he, if_pos hm]
    show (Gambit.Add_A w).gambit.combo_chain = _
    rw [Add_A_chain, if_neg (by omega)]
  have hno : isMeleeWeaponSource LookupByID ev.source = false →
      (HitEventSink.ProcessEvent LookupByID (some ev) w).2 = w := by
    intro hm
    rw [he, hm]
    rfl
  refine ⟨⟨he, Add_A_ne_self w⟩, hyes, ?_, ?_⟩
  · intro hl
    refine ⟨?_, hyes hl⟩
    intro hch
    by_contra hm
    have hf : isMeleeWeaponSource LookupByID ev.source = false := by
      simpa using hm
    rw [hno hf] at hch
    have hlen := congrArg List.length hch
    simp at hlen
  · intro hm
    have := hno hm
    exact ⟨this, by rw [this]⟩

/-- Witness for C12: a plain hit by the player on an actor with a melee weapon, on the store
holding Bash, leaves the sequence Bash, Normal. -/
theorem C12_normal_hit_appends_iff_melee_weapon_witness :
    (HitEventSink.ProcessEvent (fun _ => some ⟨true, some ⟨true⟩⟩)
        (some ⟨some ⟨true, true⟩, some ⟨false, true⟩, 0, ⟨false, false⟩⟩)
        (Gambit.Add_B World.init)).2.gambit.combo_chain = [Char.ofNat 50, Char.ofNat 49] :=
  (C12_normal_hit_appends_iff_melee_weapon (fun _ => some ⟨true, some ⟨true⟩⟩)
    ⟨some ⟨true, true⟩, some ⟨false, true⟩, 0, ⟨false, false⟩⟩ ⟨true, true⟩ ⟨false, true⟩
    (Gambit.Add_B World.init) rfl rfl rfl rfl rfl rfl).2.1 (by decide) (by decide)

/-- C13: `HitEventSink::ProcessEvent` returns the state untouched for a null event, for an
event with no cause, for an event with no target, for an event whose target is not an actor,
and for an event whose cause is not the player, whatever the flags, the source and the other
fields are. -/
theorem C13_invalid_hit_is_rejected (LookupByID : Nat → Option TESForm) (w : World)
    (cause target : Option TESObjectREFR) (source : Nat) (flags : HitFlags)
    (isPlayer isActor : Bool) :
    HitEventSink.ProcessEvent LookupByID none w = (BSEventNotifyControl.kContinue, w) ∧
    HitEventSink.ProcessEvent LookupByID (some ⟨none, target, source, flags⟩) w
      = (BSEventNotifyControl.kContinue, w) ∧
    HitEventSink.ProcessEvent LookupByID (some ⟨cause, none, source, flags⟩) w
      = (BSEventNotifyControl.kContinue, w) ∧
    HitEventSink.ProcessEvent LookupByID
        (some ⟨cause, some ⟨isPlayer, false⟩, source, flags⟩) w
      = (BSEventNotifyControl.kContinue, w) ∧
    HitEventSink.ProcessEvent LookupByID
        (some ⟨some ⟨false, isActor⟩, target, source, flags⟩) w
      = (BSEventNotifyControl.kContinue, w) := by
  refine ⟨?_, ?_, ?_, ?_, ?_⟩
  · simp [HitEventSink.ProcessEvent, HitEventSink.EventValidate]
  · simp [HitEventSink.ProcessEvent, HitEventSink.EventValidate]
  · cases cause <;> simp [HitEventSink.ProcessEvent, HitEventSink.EventValidate]
  · cases cause <;> simp [HitEventSink.ProcessEvent, HitEventSink.EventValidate]
  · cases target <;> simp [HitEventSink.ProcessEvent, HitEventSink.EventValidate]

/-- C14: for every hit event and every store state, `HitEventSink::ProcessEvent` does nothing,
or exactly one `Add_A`, or exactly one `Add_B`: the sequence afterwards is the sequence before
or the sequence before with one digit (1 or 2) added at the tail, it is never shorter, and no
animation signal is sent. -/
theorem C14_hit_stage_only_appends (LookupByID : Nat → Option TESForm)
    (event : Option TESHitEvent) (w : World) :
    ((HitEventSink.ProcessEvent LookupByID event w).2 = w ∨
      (HitEventSink.ProcessEvent LookupByID event w).2 = Gambit.Add_A w ∨
      (HitEventSink.ProcessEvent LookupByID event w).2 = Gambit.Add_B w) ∧
    ((HitEventSink.ProcessEvent LookupByID event w).2.gambit.combo_chain = w.gambit.combo_chain ∨
      (HitEventSink.ProcessEvent LookupByID event w).2.gambit.combo_chain
        = w.gambit.combo_chain ++ [Char.ofNat 49] ∨
      (HitEventSink.ProcessEvent LookupByID event w).2.gambit.combo_chain
        = w.gambit.combo_chain ++ [Char.ofNat 50]) ∧
    w.gambit.combo_chain.length
      ≤ (HitEventSink.ProcessEvent LookupByID event w).2.gambit.combo_chain.length ∧
    animSignals (HitEventSink.ProcessEvent LookupByID event w).2.out = animSignals w.out := by
  rcases HitEventSink_ProcessEvent_cases LookupByID event w with h | h | h
  · rw [h]
    exact ⟨Or.inl rfl, Or.inl rfl, Nat.le_refl _, rfl⟩
  · rw [h]
    refine ⟨Or.inr (Or.inl rfl), ?_, ?_, Add_A_animSignals w⟩
    · show (Gambit.Add_A w).gambit.combo_chain = _ ∨ _
      rw [Add_A_chain]
      split_ifs
      · exact Or.inl rfl
      · exact Or.inr (Or.inl rfl)
    · show _ ≤ (Gambit.Add_A w).gambit.combo_chain.length
      rw [Add_A_chain]
      split_ifs <;> simp
  · rw [h]
    refine ⟨Or.inr (Or.inr rfl), ?_, ?_, Add_B_animSignals w⟩
    · show (Gambit.Add_B w).gambit.combo_chain = _ ∨ _
      rw [Add_B_chain]
      split_ifs
      · exact Or.inl rfl
      · exact Or.inr (Or.inr rfl)
    · show _ ≤ (Gambit.Add_B w).gambit.combo_chain.length
      rw [Add_B_chain]
      split_ifs <;> simp

theorem execute_gambit_ne_self_of_ok (p : PlayerCharacter) (w : World)
    (h : ChainOK w.gambit.combo_chain) (hne : w.gambit.combo_chain ≠ []) :
    execute_gambit p w ≠ w := by
  intro he
  have hl : w.out.length + 2 ≤ (execute_gambit p w).out.length := by
    rw [execute_gambit_of_ok p w h hne]
    have hd := dispatch_out_length p (Gambit.GetComboState w).1
      (w.log ("Attempting Cashout for ID: " ++ toString (Gambit.GetComboState w).1))
    simp only [Gambit.Clear, World.log_out, List.length_append, List.length_singleton] at hd ⊢
    omega
  rw [he] at hl
  omega

theorem AnimEventSink_ProcessEvent_cases (playerSingleton : Option PlayerCharacter)
    (event : Option BSAnimationGraphEvent) (w : World) :
    AnimEventSink.ProcessEvent playerSingleton event w = (BSEventNotifyControl.kContinue, w) ∨
    ∃ player, AnimEventSink.ProcessEvent playerSingleton event w
      = (BSEventNotifyControl.kContinue,
          execute_gambit player (w.log "We are now going to do execute_gambit")) := by
  rcases event with _ | ⟨tag, holder⟩
  · exact Or.inl rfl
  · rcases holder with _ | ⟨isPlayer, isActor⟩
    · exact Or.inl rfl
    · cases isPlayer
      · exact Or.inl rfl
      · cases playerSingleton with
        | none => exact Or.inl rfl
        | some player =>
          by_cases hf : (find tag.data "PowerAttack_Start_End".data).isSome = true
          · exact Or.inr ⟨player, by simp [AnimEventSink.ProcessEvent, hf]⟩
          · exact Or.inl (by simp [AnimEventSink.ProcessEvent, hf])

/-- C15: for every animation event and every store state, `AnimEventSink::ProcessEvent` leaves
the sequence as it was or empty (it never appends); and for a null event, an event with no
holder, and an event whose holder is not the player, it returns the state untouched (no
cashout runs), whatever the tag and the player singleton are. -/
theorem C15_anim_stage_never_appends (playerSingleton : Option PlayerCharacter)
    (event : Option BSAnimationGraphEvent) (w : World) (tag : String) (isActor : Bool) :
    ((AnimEventSink.ProcessEvent playerSingleton event w).2.gambit.combo_chain
        = w.gambit.combo_chain ∨
      (AnimEventSink.ProcessEvent playerSingleton event w).2.gambit.combo_chain = []) ∧
    AnimEventSink.ProcessEvent playerSingleton none w = (BSEventNotifyControl.kContinue, w) ∧
    AnimEventSink.ProcessEvent playerSingleton (some ⟨tag, none⟩) w
      = (BSEventNotifyControl.kContinue, w) ∧
    AnimEventSink.ProcessEvent playerSingleton (some ⟨tag, some ⟨false, isActor⟩⟩) w
      = (BSEventNotifyControl.kContinue, w) := by
  refine ⟨?_, rfl, rfl, rfl⟩
  rcases AnimEventSink_ProcessEvent_cases playerSingleton event w with h | ⟨player, h⟩
  · rw [h]
    exact Or.inl rfl
  · rw [h]
    show (execute_gambit player _).gambit.combo_chain = _ ∨ _
    rw [execute_gambit_chain]
    split_ifs
    · exact Or.inl rfl
    · exact Or.inr rfl

/-- C16: in every state reachable from the empty store by `Add_A`, `Add_B`, `Clear` and
`execute_gambit`, decoding succeeds: on a non-empty sequence `std::stoi` returns a value (no
exception), `GetComboState` returns that value without logging anything, the value lies in
0..222222 and so is never the failure value -1. -/
theorem C16_decode_never_fails (w : World) (h : Reachable w) :
    (w.gambit.combo_chain ≠ [] →
      stoi w.gambit.combo_chain = some (Gambit.GetComboState w).1) ∧
    (Gambit.GetComboState w).2 = w ∧
    (0 ≤ (Gambit.GetComboState w).1 ∧ (Gambit.GetComboState w).1 ≤ 222222) ∧
    (Gambit.GetComboState w).1 ≠ -1 := by
  have hok := Reachable.chainOK h
  have hv := GetComboState_ok w hok
  have hb := chainValue_le_of_ok _ hok
  rw [hv]
  refine ⟨fun hne => stoi_of_ok _ hok hne, rfl, ⟨?_, ?_⟩, ?_⟩
  · show (0 : Int) ≤ (chainValue 0 w.gambit.combo_chain : Nat)
    omega
  · show ((chainValue 0 w.gambit.combo_chain : Nat) : Int) ≤ 222222
    omega
  · show ((chainValue 0 w.gambit.combo_chain : Nat) : Int) ≠ -1
    omega

/-- Witness for C16 at the reachable full store holding six Bash tokens, which decodes to the
largest value 222222. -/
theorem C16_decode_never_fails_witness :
    Reachable (runOps PlayerCharacter.singleton
      [Op.Add_B, Op.Add_B, Op.Add_B, Op.Add_B, Op.Add_B, Op.Add_B] World.init) ∧
    (Gambit.GetComboState (runOps PlayerCharacter.singleton
      [Op.Add_B, Op.Add_B, Op.Add_B, Op.Add_B, Op.Add_B, Op.Add_B] World.init)).1 ≠ -1 :=
  ⟨⟨_, rfl⟩, (C16_decode_never_fails _ ⟨_, rfl⟩).2.2.2⟩

/-- C17: from every store state, `Clear` yields the store of a freshly constructed `Gambit`:
the sequence is empty and `GetComboState` returns 0; and `Clear` applied twice leaves the same
store as `Clear` applied once. -/
theorem C17_clear_resets_to_fresh (w : World) :
    (Gambit.Clear w).gambit = World.init.gambit ∧
    (Gambit.Clear w).gambit.combo_chain = [] ∧
    (Gambit.GetComboState (Gambit.Clear w)).1 = 0 ∧
    (Gambit.GetComboState World.init).1 = 0 ∧
    (Gambit.Clear (Gambit.Clear w)).gambit = (Gambit.Clear w).gambit := by
  refine ⟨rfl, rfl, ?_, ?_, rfl⟩
  · rw [GetComboState_of_nil _ rfl]
  · rw [GetComboState_of_nil _ rfl]

/-- C19: `GetComboState` is injective on reachable states: if it returns the same value on two
states reachable from the empty store by `Add_A`, `Add_B`, `Clear` and `execute_gambit`, their
combo sequences are equal. -/
theorem C19_decode_injective_on_reachable (w1 w2 : World) (h1 : Reachable w1)
    (h2 : Reachable w2)
    (h : (Gambit.GetComboState w1).1 = (Gambit.GetComboState w2).1) :
    w1.gambit.combo_chain = w2.gambit.combo_chain := by
  have ok1 := Reachable.chainOK h1
  have ok2 := Reachable.chainOK h2
  rw [GetComboState_ok w1 ok1, GetComboState_ok w2 ok2] at h
  have hn : chainValue 0 w1.gambit.combo_chain = chainValue 0 w2.gambit.combo_chain := by
    have h3 : ((chainValue 0 w1.gambit.combo_chain : Nat) : Int)
        = ((chainValue 0 w2.gambit.combo_chain : Nat) : Int) := h
    omega
  exact chainValue_inj _ _ ok1.1 ok2.1 hn

/-- Witness for C19: the state after Normal, Bash and the state after Bash, a cashout, Normal,
Bash both decode to 12 and hold the same sequence. -/
theorem C19_decode_injective_on_reachable_witness :
    (runOps PlayerCharacter.singleton [Op.Add_A, Op.Add_B] World.init).gambit.combo_chain
      = (runOps PlayerCharacter.singleton
          [Op.Add_B, Op.execute_gambit, Op.Add_A, Op.Add_B] World.init).gambit.combo_chain :=
  C19_decode_injective_on_reachable _ _ ⟨_, rfl⟩ ⟨_, rfl⟩ (by decide)

/-- C20: in every reachable state, `GetComboState` returns 0 if and only if the combo sequence
is empty; so `execute_gambit` takes its early return, leaving the state untouched, exactly
when the sequence is empty, and a non-empty reachable sequence is always cleared by it. -/
theorem C20_zero_iff_empty (p : PlayerCharacter) (w : World) (h : Reachable w) :
    ((Gambit.GetComboState w).1 = 0 ↔ w.gambit.combo_chain = []) ∧
    (execute_gambit p w = w ↔ w.gambit.combo_chain = []) ∧
    (w.gambit.combo_chain ≠ [] → (execute_gambit p w).gambit.combo_chain = []) := by
  have hok := Reachable.chainOK h
  refine ⟨⟨?_, ?_⟩, ⟨?_, ?_⟩, ?_⟩
  · intro hz
    by_contra hne
    have hpos := chainValue_pos _ hok.1 hne
    rw [GetComboState_of_ok w hok hne] at hz
    have hz2 : ((chainValue 0 w.gambit.combo_chain : Nat) : Int) = 0 := hz
    omega
  · intro he
    rw [GetComboState_of_nil w he]
  · intro he
    by_contra hne
    exact execute_gambit_ne_self_of_ok p w hok hne he
  · intro he
    unfold execute_gambit
    simp [GetComboState_of_nil w he]
  · intro hne
    rw [execute_gambit_of_ok p w hok hne]
    rfl

/-- Witness for C20 at the reachable state holding Bash: the decoded value is not 0 there. -/
theorem C20_zero_iff_empty_witness :
    Reachable (runOps PlayerCharacter.singleton [Op.Add_B] World.init) ∧
    ((Gambit.GetComboState (runOps PlayerCharacter.singleton [Op.Add_B] World.init)).1 = 0 ↔
      (runOps PlayerCharacter.singleton [Op.Add_B] World.init).gambit.combo_chain = []) :=
  ⟨⟨_, rfl⟩, (C20_zero_iff_empty PlayerCharacter.singleton _ ⟨_, rfl⟩).1⟩

end GambitMod
